import Mathlib

/-!
# Verification of the `cuti` CLI core subsystems

Shallow embedding of the layered configuration store (`src/lib/config.ts`,
class `ConfigManager`), the worktree repository adapter
(`src/commands/worktree/{list,add,remove}.ts`) and the hook dispatcher
(`src/lib/hooks.ts`, class `HookManager`).

JSON documents are modelled by the inductive `JValue` (scalars and
string-keyed objects; the configuration documents manipulated by the
claims are trees of scalars and objects).  JavaScript objects are
modelled as association lists `List (String × JValue)`; property lookup
is first-match lookup, property assignment updates an existing entry in
place or appends, property deletion removes the entry, and the spread
`{...a, ...b}` keeps `a`'s key order with `b`'s values winning.
Disk I/O is abstracted: the observable content of a config file is the
`FileContent` classification (missing / blank / malformed / parsed),
which is exactly the case split the loaders perform, and saving never
changes in-memory state.
-/

/-- A JSON value: `null`, booleans, numbers, strings, or an object whose
fields are an ordered association list of string keys and values. -/
inductive JValue where
  | null : JValue
  | bool : Bool → JValue
  | num : Int → JValue
  | str : String → JValue
  | obj : List (String × JValue) → JValue
deriving Repr

/-- A JavaScript object: ordered association list of fields. -/
abbrev JObj := List (String × JValue)

namespace JValue

/-- Property lookup `o[k]`: the value of the first field named `k`,
`none` when the property is absent (JS `undefined`). -/
def lookupJ (o : JObj) (k : String) : Option JValue :=
  (o.find? (fun p => p.1 == k)).map (·.2)

/-- JS property assignment `o[k] = v`: overwrite the existing field in
place when present (key order preserved), otherwise append a new field. -/
def setKey (o : JObj) (k : String) (v : JValue) : JObj :=
  if (lookupJ o k).isSome then
    o.map (fun p => if p.1 == k then (k, v) else p)
  else
    o ++ [(k, v)]

/-- JS property deletion `delete o[k]`: remove the field named `k`;
a no-op when the property is absent. -/
def delKey (o : JObj) (k : String) : JObj :=
  o.filter (fun p => !(p.1 == k))

/-- JS object spread `{...a, ...b}`: the keys of `a` in order, each
taking `b`'s value when `b` also has the key, followed by the keys of
`b` that are not in `a`, in `b`'s order. -/
def spreadObj (a b : JObj) : JObj :=
  a.map (fun p => (p.1, (lookupJ b p.1).getD p.2)) ++
    b.filter (fun p => (lookupJ a p.1).isNone)

/-- Is the value a non-null JS object?  (`typeof v === 'object' && v !== null`;
in this model only `.obj` satisfies it — `typeof null === 'object'` but the
sources always pair the check with a truthiness or null test.) -/
def isObjV : JValue → Bool
  | .obj _ => true
  | _ => false

/-- Well-formed JSON value: every object in the tree has pairwise distinct
keys.  Every document produced by `JSON.parse` or by the store's own
operations satisfies this. -/
inductive WfVal : JValue → Prop where
  | null : WfVal .null
  | bool (b : Bool) : WfVal (.bool b)
  | num (n : Int) : WfVal (.num n)
  | str (s : String) : WfVal (.str s)
  | obj (o : JObj) : (o.map Prod.fst).Nodup → (∀ p ∈ o, WfVal p.2) →
      WfVal (.obj o)

end JValue

/-! ## String helpers

JavaScript string primitives used by the sources, modelled at the level
of character lists (the sources only ever split or match on ASCII
separators, where UTF-16 code units and characters coincide). -/

/-- Split a character list at every occurrence of `sep`
(JS `String.prototype.split` with a single-character separator). -/
def splitOnChar (sep : Char) : List Char → List (List Char)
  | [] => [[]]
  | c :: cs =>
    let r := splitOnChar sep cs
    if c = sep then [] :: r
    else
      match r with
      | [] => [[c]]
      | s :: rest => (c :: s) :: rest

/-- JS `key.split('.')`. -/
def splitDot (s : String) : List String :=
  (splitOnChar '.' s.toList).map (fun l => ⟨l⟩)

/-- JS `output.split('\n')`. -/
def splitLines (s : String) : List String :=
  (splitOnChar '\n' s.toList).map (fun l => ⟨l⟩)

/-- JS `s.startsWith(pre)`. -/
def startsWithStr (s pre : String) : Bool :=
  pre.toList.isPrefixOf s.toList

/-- JS `s.substring(n)` (drop the first `n` code units). -/
def dropChars (s : String) (n : Nat) : String :=
  ⟨s.toList.drop n⟩

/-- Remove the first occurrence of `pat` from a character list
(JS `String.prototype.replace` with a string pattern and an empty
replacement replaces only the first occurrence). -/
def replaceFirstList (pat : List Char) : List Char → List Char
  | [] => []
  | c :: cs =>
    if pat.isPrefixOf (c :: cs) then (c :: cs).drop pat.length
    else c :: replaceFirstList pat cs

/-- JS `s.replace(pat, '')` for a non-empty string pattern `pat`. -/
def replaceFirst (s pat : String) : String :=
  ⟨replaceFirstList pat.toList s.toList⟩

namespace JValue

/-! ## Dotted-path operations (`src/lib/config.ts`)

The bodies of `ConfigManager.get` / `set` / `delete` after
`key.split('.')`, with the in-place mutation of the nested objects
rendered as a functional rebuild of the traversed spine. -/

/-- The walk in `ConfigManager.get`: descend through object fields;
`undefined` (`none`) as soon as the current value is not a non-null
object or lacks the segment
(`if (value && typeof value === 'object' && k in value)`). -/
def getPath : JValue → List String → Option JValue
  | v, [] => some v
  | .obj o, k :: ks =>
    match lookupJ o k with
    | some v => getPath v ks
    | none => none
  | _, _ :: _ => none

/-- The nested-key walk in `ConfigManager.set`: for every segment but the
last, keep an existing object field and otherwise (absent field,
non-object value, or `null`) overwrite it with a fresh empty object
(`if (!(k in current) || typeof current[k] !== 'object' || current[k] === null) current[k] = {}`);
assign the value at the final segment. -/
def setPath (o : JObj) : List String → JValue → JObj
  | [], _ => o
  | [k], v => setKey o k v
  | k :: k1 :: ks, v =>
    let child : JObj :=
      match lookupJ o k with
      | some (.obj c) => c
      | _ => []
    setKey o k (.obj (setPath child (k1 :: ks) v))

/-- The nested-key walk in `ConfigManager.delete`: a single segment is a
plain `delete`; for a dotted key, stop (returning the document
unchanged) as soon as an intermediate segment is missing or not an
object (`if (!current[k] || typeof current[k] !== 'object') return`),
otherwise delete the final segment. -/
def deletePath (o : JObj) : List String → JObj
  | [] => o
  | [k] => delKey o k
  | k :: k1 :: ks =>
    match lookupJ o k with
    | some (.obj c) => setKey o k (.obj (deletePath c (k1 :: ks)))
    | _ => o

end JValue

/-! ## The layered config store (`src/lib/config.ts`, class `ConfigManager`)

The in-memory state is the triple of the two scope documents and the
cached merged view.  Disk reads are abstracted by `FileContent`, the
exact case split performed by the synchronous loaders; disk writes
(`saveGlobalConfig` / `saveLocalConfig`) do not change in-memory state
and are omitted.  Every loader has a catch-all `catch` returning the
default document, so the loaders are total functions — no read failure
ever surfaces to the caller. -/

open JValue

/-- In-memory state of a `ConfigManager` instance. -/
structure ConfigState where
  globalConfig : JObj
  localConfig : JObj
  mergedConfig : JObj
deriving Repr

/-- What `readFileSync` + `content.trim()` + `JSON.parse` observe of a
config file on disk. -/
inductive FileContent where
  | missing
  /-- the file exists but is zero-byte or whitespace-only
  (`!content || content.trim() === ''`) -/
  | blank
  /-- the file exists, is non-blank, and `JSON.parse` throws -/
  | malformed
  /-- `JSON.parse` succeeds with object `o` -/
  | parsed (o : JObj)
deriving Repr

namespace ConfigManager

/-- `ConfigManager.DEFAULT_CONFIG = { version: '1.0.0' }`. -/
def DEFAULT_CONFIG : JObj := [("version", .str "1.0.0")]

/-- `mergeConfigs(): return { ...this.globalConfig, ...this.localConfig }`. -/
def mergeConfigs (g l : JObj) : JObj := spreadObj g l

/-- `loadGlobalConfigSync`: missing, blank or malformed files yield a copy
of the default config; a parsed document is overlaid onto the default
(`{ ...DEFAULT_CONFIG, ...JSON.parse(content) }`). -/
def loadGlobalConfigSync : FileContent → JObj
  | .missing => DEFAULT_CONFIG
  | .blank => DEFAULT_CONFIG
  | .malformed => DEFAULT_CONFIG
  | .parsed o => spreadObj DEFAULT_CONFIG o

/-- `loadLocalConfigSync`: missing, blank or malformed files yield the
empty document; otherwise the parsed document itself. -/
def loadLocalConfigSync : FileContent → JObj
  | .missing => []
  | .blank => []
  | .malformed => []
  | .parsed o => o

/-- `loadConfigsSync` (run by the constructor and by `reloadConfigs`):
load both documents and recompute the merged view. -/
def loadConfigsSync (gf lf : FileContent) : ConfigState :=
  let g := loadGlobalConfigSync gf
  let l := loadLocalConfigSync lf
  ⟨g, l, mergeConfigs g l⟩

/-- `ConfigManager.get`: split the key on `.` and walk the merged view. -/
def get (s : ConfigState) (key : String) : Option JValue :=
  getPath (.obj s.mergedConfig) (splitDot key)

/-- Argument of `ConfigManager.reset`. -/
inductive ResetScope where
  | global
  | local
  | all
deriving Repr, DecidableEq

/-- The store mutations named by the spec, with the disk interaction of
`reloadConfigs` and `initLocalConfig` abstracted into parameters. -/
inductive Mutation where
  | set (key : String) (value : JValue) (globalScope : Bool)
  | delete (key : String) (globalScope : Bool)
  | setMultiple (values : JObj) (globalScope : Bool)
  | clearLocal
  | clearGlobal
  | reset (scope : ResetScope)
  | reloadConfigs (globalFile localFile : FileContent)
  /-- `initLocalConfig`; `localFileExists` is `existsSync(this.localConfigPath)` -/
  | initLocalConfig (localFileExists : Bool)

/-- One public mutation of the store, acting on the in-memory state
exactly as the corresponding `ConfigManager` method does (each method
persists the target document and then runs
`this.mergedConfig = this.mergeConfigs()`). -/
def applyMutation (s : ConfigState) : Mutation → ConfigState
  | .set key value g =>
    let ks := splitDot key
    let g2 := if g then setPath s.globalConfig ks value else s.globalConfig
    let l2 := if g then s.localConfig else setPath s.localConfig ks value
    ⟨g2, l2, mergeConfigs g2 l2⟩
  | .delete key g =>
    let ks := splitDot key
    let g2 := if g then deletePath s.globalConfig ks else s.globalConfig
    let l2 := if g then s.localConfig else deletePath s.localConfig ks
    ⟨g2, l2, mergeConfigs g2 l2⟩
  | .setMultiple values g =>
    let g2 := if g then spreadObj s.globalConfig values else s.globalConfig
    let l2 := if g then s.localConfig else spreadObj s.localConfig values
    ⟨g2, l2, mergeConfigs g2 l2⟩
  | .clearLocal => ⟨s.globalConfig, [], mergeConfigs s.globalConfig []⟩
  | .clearGlobal =>
    ⟨DEFAULT_CONFIG, s.localConfig, mergeConfigs DEFAULT_CONFIG s.localConfig⟩
  | .reset scope =>
    let g2 := match scope with
      | .local => s.globalConfig
      | _ => DEFAULT_CONFIG
    let l2 := match scope with
      | .global => s.localConfig
      | _ => []
    ⟨g2, l2, mergeConfigs g2 l2⟩
  | .reloadConfigs gf lf => loadConfigsSync gf lf
  | .initLocalConfig ex =>
    if ex then s
    else
      let l2 : JObj := [("version", .str "1.0.0")]
      ⟨s.globalConfig, l2, mergeConfigs s.globalConfig l2⟩

/-- The cached merged view is the recomputed shallow merge. -/
def mergedInvariant (s : ConfigState) : Prop :=
  s.mergedConfig = mergeConfigs s.globalConfig s.localConfig

end ConfigManager

/-! ## Worktree repository adapter
(`src/commands/worktree/list.ts`, `add.ts`, `remove.ts`)

The `git` child-process invocations are abstracted: `listWorktrees`
takes the porcelain output it would have read from
`git worktree list --porcelain`, and `createWorktree` is modelled up to
the point where the branch name and worktree path are fixed (the
subsequent `git worktree add` invocation uses exactly these two
values). -/

/-- JS truthiness of a possibly-undefined string: `undefined` and the
empty string are falsy. -/
def truthyStr (o : Option String) : Bool := o.getD "" != ""

/-- One record of `git worktree list --porcelain` as parsed by
`listWorktrees` (`branch` and `commit` are absent when the record has no
such line; `branch` is absent for a detached-HEAD worktree). -/
structure WorktreeInfo where
  path : String
  commit : Option String
  branch : Option String
deriving Repr, DecidableEq

/-- The loop accumulator `currentWorktree: Partial<WorktreeInfo>`. -/
structure PartialWorktreeInfo where
  path : Option String
  commit : Option String
  branch : Option String
deriving Repr, DecidableEq

namespace Worktree

/-- The parsing loop of `listWorktrees`: a `worktree ` line pushes the
accumulated record (if it has a truthy path) and starts a new one;
`HEAD ` and `branch ` lines fill in fields, the branch with the first
`refs/heads/` occurrence removed (`line.substring(7).replace('refs/heads/', '')`);
a blank line pushes the accumulated record when it has a truthy path;
after the loop the last accumulated record is pushed if it has a path. -/
def parseLines : List String → PartialWorktreeInfo → List WorktreeInfo
  | [], cur =>
    if truthyStr cur.path then [⟨cur.path.getD "", cur.commit, cur.branch⟩]
    else []
  | line :: rest, cur =>
    if startsWithStr line "worktree " then
      let started : PartialWorktreeInfo := ⟨some (dropChars line 9), none, none⟩
      if truthyStr cur.path then
        ⟨cur.path.getD "", cur.commit, cur.branch⟩ :: parseLines rest started
      else parseLines rest started
    else if startsWithStr line "HEAD " then
      parseLines rest ⟨cur.path, some (dropChars line 5), cur.branch⟩
    else if startsWithStr line "branch " then
      parseLines rest
        ⟨cur.path, cur.commit,
          some (replaceFirst (dropChars line 7) "refs/heads/")⟩
    else if (line == "") && truthyStr cur.path then
      ⟨cur.path.getD "", cur.commit, cur.branch⟩ :: parseLines rest ⟨none, none, none⟩
    else parseLines rest cur

/-- `listWorktrees`, applied to the porcelain output of
`git worktree list --porcelain` (`output.split('\n')` then the loop). -/
def listWorktrees (output : String) : List WorktreeInfo :=
  parseLines (splitLines output) ⟨none, none, none⟩

/-- Options of `createWorktree` (`src/commands/worktree/types.ts`). -/
structure WorktreeOptions where
  branch : String
  path : Option String
  force : Bool
deriving Repr

/-- Return value of `createWorktree`. -/
structure WorktreeResult where
  path : String
  branch : String
  repoRoot : String
  repoName : String
deriving Repr, DecidableEq

/-- `const finalBranch = branchPrefix ? branchPrefix + options.branch : options.branch`
where `branchPfx` models `configManager.get<string>('branchPrefix')`
(absent or empty string is falsy). -/
def finalBranchOf (branchPfx : Option String) (branch : String) : String :=
  match branchPfx with
  | some p => if p == "" then branch else p ++ branch
  | none => branch

/-- `join(repoRoot, '..', repoName + '_worktrees', b)`, rendered as plain
slash-joining.  (Node `path.join` would additionally collapse the `..`
against the last component of `repoRoot`; that normalization rewrites
only the directory part and never the final path component, which is all
the claims inspect.) -/
def defaultWorktreePath (repoRoot repoName b : String) : String :=
  repoRoot ++ "/../" ++ repoName ++ "_worktrees/" ++ b

/-- The branch/path resolution of `createWorktree`
(`src/commands/worktree/add.ts`): apply the configured branch-prefix
policy to obtain the branch to create, and default the worktree path to
`join(repoRoot, '..', repoName + '_worktrees', finalBranch)` when
`options.path` is falsy.  The returned record is what the function both
passes to `git worktree add` and returns. -/
def createWorktree (branchPfx : Option String) (opts : WorktreeOptions)
    (repoRoot repoName : String) : WorktreeResult :=
  let finalBranch := finalBranchOf branchPfx opts.branch
  let worktreePath :=
    match opts.path with
    | some p => if p == "" then defaultWorktreePath repoRoot repoName finalBranch else p
    | none => defaultWorktreePath repoRoot repoName finalBranch
  ⟨worktreePath, finalBranch, repoRoot, repoName⟩

/-- Outcome of the branch-resolution phase of `removeWorktree`. -/
inductive RemoveOutcome where
  /-- an error thrown before any interactive prompt -/
  | err (msg : String)
  /-- the interactive selection prompt, offered these choices -/
  | promptSelection (choices : List WorktreeInfo)
  /-- a caller-supplied branch, used without prompting -/
  | useGiven (branch : String)
deriving Repr, DecidableEq

/-- The branch-resolution phase of `removeWorktree`
(`src/commands/worktree/remove.ts`): a truthy `options.branch` is used
directly; otherwise the listing is filtered to the worktrees with a
truthy branch (`worktrees.filter((wt) => wt.branch)`), and the
`'No worktrees available to remove'` error is thrown before the
interactive selector is even loaded when none remain. -/
def removeSelectPhase (branchOpt : Option String)
    (worktrees : List WorktreeInfo) : RemoveOutcome :=
  if truthyStr branchOpt then .useGiven (branchOpt.getD "")
  else
    let removableWorktrees := worktrees.filter (fun wt => truthyStr wt.branch)
    if removableWorktrees.isEmpty then .err "No worktrees available to remove"
    else .promptSelection removableWorktrees

end Worktree

/-! ## Hook dispatcher (`src/lib/hooks.ts`, class `HookManager`) -/

namespace HookManager

/-- The resolved dispatcher configuration (built-in defaults overlaid by
the config store's `hooks` key at construction). -/
structure HookConfig where
  enabled : Bool
  failOnError : Bool
  timeout : Int
deriving Repr

/-- One discovered hook script; `succeeds` records whether the child
process exits zero within the timeout (`executeHook` maps a non-zero
exit or a timeout to `success: false`), and `errorMsg` the
`error.message` reported in that case. -/
structure Hook where
  name : String
  succeeds : Bool
  errorMsg : String
deriving Repr

/-- The loop of `runHooks` over the discovered hooks: each hook is
executed and its output printed; on failure, if `failOnError` is set an
error is thrown ending the loop, otherwise the loop continues with the
next hook.  Returns the names of the hooks that were executed, in
order, together with the thrown error if any. -/
def runLoop (cfg : HookConfig) : List Hook → List String × Option String
  | [] => ([], none)
  | h :: rest =>
    if h.succeeds then
      let r := runLoop cfg rest
      (h.name :: r.1, r.2)
    else if cfg.failOnError then
      ([h.name], some ("Hook failed: " ++ h.name ++ "\n" ++ h.errorMsg))
    else
      let r := runLoop cfg rest
      (h.name :: r.1, r.2)

/-- `runHooks`: return immediately when hooks are disabled
(`if (!this.config.enabled) return`), otherwise run the discovered
hooks in order. -/
def runHooks (cfg : HookConfig) (hooks : List Hook) :
    List String × Option String :=
  if !cfg.enabled then ([], none) else runLoop cfg hooks

/-- The `args` field of a `HookContext` (`src/types/hooks.ts`); every
field is optional. -/
structure HookArgs where
  branch : Option String
  path : Option String
  force : Option Bool
  jira : Option Bool
  assign : Option Bool
  transition : Option Bool
  nameOnly : Option Bool
deriving Repr

/-- `phase: 'pre' | 'post'`. -/
inductive HookPhase where
  | pre
  | post
deriving Repr, DecidableEq

def phaseStr : HookPhase → String
  | .pre => "pre"
  | .post => "post"

/-- A `HookContext` (`src/types/hooks.ts`). -/
structure HookContext where
  command : String
  subcommand : String
  phase : HookPhase
  args : HookArgs
  result : Option Worktree.WorktreeResult
deriving Repr

/-- JS `x || ''` for a possibly-undefined string (an absent or empty
string argument yields the empty string). -/
def jsOrEmpty (o : Option String) : String :=
  match o with
  | some s => s
  | none => ""

/-- JS `x ? 'true' : 'false'` for a possibly-undefined boolean: only
`some true` is truthy. -/
def jsCondStr (o : Option Bool) : String :=
  if o = some true then "true" else "false"

/-- The `CUTI_HOOK_*` environment entries built by `executeHook`.  The
inherited `process.env` entries and `CUTI_HOOK_CONTEXT`
(`JSON.stringify(context)`, a serialization primitive) are not
modelled; since the `CUTI_HOOK_*` assignments come after the
`...process.env` spread, they always take the values below regardless
of the inherited environment. -/
def hookEnv (ctx : HookContext) : List (String × String) :=
  [("CUTI_HOOK_COMMAND", ctx.command),
   ("CUTI_HOOK_SUBCOMMAND", ctx.subcommand),
   ("CUTI_HOOK_PHASE", phaseStr ctx.phase),
   ("CUTI_HOOK_BRANCH", jsOrEmpty ctx.args.branch),
   ("CUTI_HOOK_PATH", jsOrEmpty ctx.args.path),
   ("CUTI_HOOK_FORCE", jsCondStr ctx.args.force),
   ("CUTI_HOOK_JIRA", jsCondStr ctx.args.jira)] ++
  (match ctx.result with
   | some r =>
     [("CUTI_HOOK_RESULT_PATH", r.path),
      ("CUTI_HOOK_RESULT_BRANCH", r.branch),
      ("CUTI_HOOK_RESULT_REPO_ROOT", r.repoRoot),
      ("CUTI_HOOK_RESULT_REPO_NAME", r.repoName)]
   | none => [])

/-- Lookup of an environment variable in the built environment. -/
def envVar (env : List (String × String)) (k : String) : Option String :=
  (env.find? (fun p => p.1 == k)).map (·.2)

end HookManager

/-! ## Shared lemmas about the object primitives -/

namespace JValue

theorem lookupJ_nil (k : String) : lookupJ ([] : JObj) k = none := rfl

theorem lookupJ_cons (p : String × JValue) (o : JObj) (k : String) :
    lookupJ (p :: o) k = if p.1 == k then some p.2 else lookupJ o k := by
  cases h : p.1 == k <;> simp [lookupJ, List.find?_cons, h]

theorem getPath_nil (v : JValue) : getPath v [] = some v := by
  cases v <;> rfl

theorem getPath_obj_cons (o : JObj) (k : String) (ks : List String) :
    getPath (.obj o) (k :: ks) =
      match lookupJ o k with
      | some v => getPath v ks
      | none => none := rfl

theorem getPath_nonobj_cons (v : JValue) (k : String) (ks : List String)
    (h : isObjV v = false) : getPath v (k :: ks) = none := by
  cases v <;> first | rfl | simp [isObjV] at h

theorem setPath_single (o : JObj) (k : String) (v : JValue) :
    setPath o [k] v = setKey o k v := rfl

theorem setPath_cons2 (o : JObj) (k k1 : String) (ks : List String) (v : JValue) :
    setPath o (k :: k1 :: ks) v =
      setKey o k (.obj (setPath
        (match lookupJ o k with
         | some (.obj c) => c
         | _ => []) (k1 :: ks) v)) := rfl

theorem deletePath_single (o : JObj) (k : String) :
    deletePath o [k] = delKey o k := rfl

theorem deletePath_cons2 (o : JObj) (k k1 : String) (ks : List String) :
    deletePath o (k :: k1 :: ks) =
      match lookupJ o k with
      | some (.obj c) => setKey o k (.obj (deletePath c (k1 :: ks)))
      | _ => o := rfl

theorem lookupJ_append (o1 o2 : JObj) (k : String) :
    lookupJ (o1 ++ o2) k = (lookupJ o1 k).or (lookupJ o2 k) := by
  unfold lookupJ
  rw [List.find?_append]
  cases List.find? (fun p => p.1 == k) o1 <;> simp

theorem lookupJ_setKey_self (o : JObj) (k : String) (v : JValue) :
    lookupJ (setKey o k v) k = some v := by
  unfold setKey
  by_cases hs : (lookupJ o k).isSome
  · simp only [hs, if_true]
    induction o with
    | nil => simp [lookupJ] at hs
    | cons p rest ih =>
      rw [List.map_cons, lookupJ_cons]
      cases hp : p.1 == k with
      | true => simp [hp]
      | false =>
        have hrest : (lookupJ rest k).isSome := by
          rw [lookupJ_cons, hp] at hs
          simpa using hs
        simpa [hp] using ih hrest
  · have hnone : lookupJ o k = none := by
      cases h : lookupJ o k
      · rfl
      · simp [h] at hs
    rw [if_neg hs, lookupJ_append, hnone]
    simp [lookupJ_cons]

theorem lookupJ_delKey_self (o : JObj) (k : String) :
    lookupJ (delKey o k) k = none := by
  unfold delKey lookupJ
  rw [List.find?_filter]
  have : List.find? (fun p => decide ((!(p.1 == k)) = true ∧ (p.1 == k) = true))
      o = none := by
    rw [List.find?_eq_none]
    intro p _
    cases h : p.1 == k <;> simp [h]
  simp [this]

theorem lookupJ_spread_mapPart (a b : JObj) (k : String) :
    lookupJ (a.map (fun p => (p.1, (lookupJ b p.1).getD p.2))) k =
      (lookupJ a k).map (fun w => (lookupJ b k).getD w) := by
  induction a with
  | nil => rfl
  | cons p rest ih =>
    rw [List.map_cons, lookupJ_cons, lookupJ_cons]
    cases hp : p.1 == k with
    | true =>
      have hpk : p.1 = k := by simpa using hp
      simp only [hp, if_true]
      rw [hpk]
      simp
    | false => simp [hp, ih]

theorem lookupJ_spread_filterPart (a b : JObj) (k : String)
    (h : lookupJ a k = none) :
    lookupJ (b.filter (fun p => (lookupJ a p.1).isNone)) k = lookupJ b k := by
  induction b with
  | nil => rfl
  | cons p rest ih =>
    rw [List.filter_cons]
    cases hp : p.1 == k with
    | true =>
      have hpk : p.1 = k := by simpa using hp
      have hcond : (lookupJ a p.1).isNone = true := by rw [hpk, h]; rfl
      simp only [hcond, if_true]
      rw [lookupJ_cons, lookupJ_cons, hp]
      simp
    | false =>
      cases hcond : (lookupJ a p.1).isNone with
      | true =>
        simp only [hcond, if_true]
        rw [lookupJ_cons, lookupJ_cons, hp]
        simp [ih]
      | false =>
        simp only [hcond, Bool.false_eq_true, if_false]
        rw [lookupJ_cons, hp]
        simp [ih]

theorem lookupJ_spreadObj (a b : JObj) (k : String) :
    lookupJ (spreadObj a b) k = (lookupJ b k).or (lookupJ a k) := by
  unfold spreadObj
  rw [lookupJ_append, lookupJ_spread_mapPart]
  cases hal : lookupJ a k with
  | some w => cases hbl : lookupJ b k <;> simp [hbl]
  | none =>
    rw [lookupJ_spread_filterPart a b k hal]
    cases hbl : lookupJ b k <;> simp [hbl]

/-- A lookup present with nodup keys is replaced by an equal field:
`setKey` is the identity. -/
theorem setKey_lookup_eq_self (o : JObj) (k : String) (w : JValue)
    (hnd : (o.map Prod.fst).Nodup) (h : lookupJ o k = some w) :
    setKey o k w = o := by
  induction o with
  | nil => simp [lookupJ] at h
  | cons p rest ih =>
    have hnd2 := hnd
    rw [List.map_cons, List.nodup_cons] at hnd2
    obtain ⟨hnotmem, hndrest⟩ := hnd2
    cases hp : p.1 == k with
    | true =>
      have hpk : p.1 = k := by simpa using hp
      have hw : w = p.2 := by
        rw [lookupJ_cons, hp] at h
        simpa using h.symm
      subst hw
      have hsome : (lookupJ (p :: rest) k).isSome := by simp [h]
      unfold setKey
      rw [if_pos hsome, List.map_cons]
      have hhead : (if p.1 == k then (k, p.2) else p) = p := by
        rw [hp, if_pos rfl, ← hpk]
      rw [hhead]
      have htail :
          rest.map (fun q => if q.1 == k then (k, p.2) else q) = rest := by
        have : ∀ q ∈ rest, (if q.1 == k then (k, p.2) else q) = q := by
          intro q hq
          cases hqk : q.1 == k with
          | true =>
            exfalso
            apply hnotmem
            have : q.1 = k := by simpa using hqk
            rw [← hpk] at this
            exact this ▸ List.mem_map_of_mem Prod.fst hq
          | false => simp
        calc rest.map (fun q => if q.1 == k then (k, p.2) else q)
            = rest.map id := List.map_congr_left this
          _ = rest := List.map_id rest
      rw [htail]
    | false =>
      have hrest : lookupJ rest k = some w := by
        rw [lookupJ_cons, hp] at h
        simpa using h
      have hsome : (lookupJ (p :: rest) k).isSome := by simp [h]
      have hsomer : (lookupJ rest k).isSome := by simp [hrest]
      have ihr := ih hndrest hrest
      unfold setKey at ihr ⊢
      rw [if_pos hsome, List.map_cons]
      rw [if_pos hsomer] at ihr
      have hhead : (if p.1 == k then (k, w) else p) = p := by rw [hp]; simp
      rw [hhead, ihr]

/-- Setting a dotted path makes its head key present, holding a value
that yields the written leaf along the remaining path. -/
theorem setPath_head (v : JValue) : ∀ (rest : List String) (k0 : String) (o : JObj),
    ∃ X, lookupJ (setPath o (k0 :: rest) v) k0 = some X ∧ getPath X rest = some v := by
  intro rest
  induction rest with
  | nil =>
    intro k0 o
    exact ⟨v, lookupJ_setKey_self o k0 v, getPath_nil v⟩
  | cons k1 rest ih =>
    intro k0 o
    refine ⟨_, lookupJ_setKey_self o k0 _, ?_⟩
    obtain ⟨X, hX, hget⟩ :=
      ih k1 (match lookupJ o k0 with
             | some (.obj c) => c
             | _ => [])
    rw [getPath_obj_cons, hX]
    exact hget

/-- Round trip inside a single document: writing a dotted path and
reading it back along the same path yields the written value. -/
theorem getPath_setPath (o : JObj) (k0 : String) (rest : List String) (v : JValue) :
    getPath (.obj (setPath o (k0 :: rest) v)) (k0 :: rest) = some v := by
  obtain ⟨X, hX, hget⟩ := setPath_head v rest k0 o
  rw [getPath_obj_cons, hX]
  exact hget

/-- Deleting a dotted path removes any value readable along it. -/
theorem getPath_deletePath : ∀ (rest : List String) (k0 : String) (o : JObj),
    getPath (.obj (deletePath o (k0 :: rest))) (k0 :: rest) = none := by
  intro rest
  induction rest with
  | nil =>
    intro k0 o
    rw [deletePath_single, getPath_obj_cons, lookupJ_delKey_self]
  | cons k1 rest ih =>
    intro k0 o
    cases h : lookupJ o k0 with
    | none =>
      have hd : deletePath o (k0 :: k1 :: rest) = o := by rw [deletePath_cons2, h]
      rw [hd, getPath_obj_cons, h]
    | some w =>
      cases w with
      | obj c =>
        have hd : deletePath o (k0 :: k1 :: rest) =
            setKey o k0 (.obj (deletePath c (k1 :: rest))) := by
          rw [deletePath_cons2, h]
        rw [hd, getPath_obj_cons, lookupJ_setKey_self]
        exact ih k1 c
      | null =>
        have hd : deletePath o (k0 :: k1 :: rest) = o := by rw [deletePath_cons2, h]
        rw [hd, getPath_obj_cons, h]
        rfl
      | bool b =>
        have hd : deletePath o (k0 :: k1 :: rest) = o := by rw [deletePath_cons2, h]
        rw [hd, getPath_obj_cons, h]
        rfl
      | num n =>
        have hd : deletePath o (k0 :: k1 :: rest) = o := by rw [deletePath_cons2, h]
        rw [hd, getPath_obj_cons, h]
        rfl
      | str s =>
        have hd : deletePath o (k0 :: k1 :: rest) = o := by rw [deletePath_cons2, h]
        rw [hd, getPath_obj_cons, h]
        rfl

/-- Deleting a dotted path that yields no value leaves a well-formed
document literally unchanged. -/
theorem deletePath_noop : ∀ (ks : List String) (o : JObj), WfVal (.obj o) →
    getPath (.obj o) ks = none → deletePath o ks = o := by
  intro ks
  induction ks with
  | nil => intro o _ h; rw [getPath_nil] at h; exact absurd h (by simp)
  | cons k0 rest ih =>
    intro o hwf hget
    cases rest with
    | nil =>
      have hnone : lookupJ o k0 = none := by
        cases h : lookupJ o k0 with
        | none => rfl
        | some v =>
          rw [getPath_obj_cons, h] at hget
          have h2 : getPath v [] = none := hget
          rw [getPath_nil] at h2
          exact absurd h2 (by simp)
      have hall : ∀ p ∈ o, (!(p.1 == k0)) = true := by
        intro p hp
        have hfind : o.find? (fun p => p.1 == k0) = none := by
          cases hf : o.find? (fun p => p.1 == k0)
          · rfl
          · simp [lookupJ, hf] at hnone
        have := (List.find?_eq_none.mp hfind) p hp
        simpa using this
      rw [deletePath_single]
      exact List.filter_eq_self.mpr hall
    | cons k1 rest2 =>
      cases h : lookupJ o k0 with
      | none => rw [deletePath_cons2, h]
      | some w =>
        cases w with
        | obj c =>
          have hfind : o.find? (fun p => p.1 == k0) = some (k0, JValue.obj c) := by
            cases hf : o.find? (fun p => p.1 == k0) with
            | none => simp [lookupJ, hf] at h
            | some q =>
              have hq2 : q.2 = JValue.obj c := by simpa [lookupJ, hf] using h
              have hq1 : q.1 = k0 := by simpa using List.find?_some hf
              rw [← hq1, ← hq2]
          have hmem : (k0, JValue.obj c) ∈ o := List.mem_of_find?_eq_some hfind
          cases hwf with
          | obj _ hnd hvals =>
            have hwfc : WfVal (.obj c) := hvals _ hmem
            have hgc : getPath (.obj c) (k1 :: rest2) = none := by
              rw [getPath_obj_cons, h] at hget
              exact hget
            have hdel : deletePath c (k1 :: rest2) = c := ih c hwfc hgc
            have hd2 : deletePath o (k0 :: k1 :: rest2) =
                setKey o k0 (JValue.obj (deletePath c (k1 :: rest2))) := by
              rw [deletePath_cons2, h]
            rw [hd2, hdel]
            exact setKey_lookup_eq_self o k0 (JValue.obj c) hnd h
        | null => rw [deletePath_cons2, h]
        | bool b => rw [deletePath_cons2, h]
        | num n => rw [deletePath_cons2, h]
        | str s => rw [deletePath_cons2, h]

/-- A dotted lookup missing from both documents is missing from their
shallow merge. -/
theorem getPath_spreadObj_none (a b : JObj) (k0 : String) (rest : List String)
    (ha : getPath (.obj a) (k0 :: rest) = none)
    (hb : getPath (.obj b) (k0 :: rest) = none) :
    getPath (.obj (spreadObj a b)) (k0 :: rest) = none := by
  cases hbl : lookupJ b k0 with
  | some x =>
    have hx : getPath x rest = none := by
      rw [getPath_obj_cons, hbl] at hb
      exact hb
    rw [getPath_obj_cons, lookupJ_spreadObj, hbl]
    exact hx
  | none =>
    cases hal : lookupJ a k0 with
    | some y =>
      have hy : getPath y rest = none := by
        rw [getPath_obj_cons, hal] at ha
        exact ha
      rw [getPath_obj_cons, lookupJ_spreadObj, hbl, hal]
      exact hy
    | none =>
      rw [getPath_obj_cons, lookupJ_spreadObj, hbl, hal]
      rfl

end JValue

/-- `splitOnChar` never returns the empty list. -/
theorem splitOnChar_ne_nil (sep : Char) : ∀ cs : List Char, splitOnChar sep cs ≠ [] := by
  intro cs
  induction cs with
  | nil => simp [splitOnChar]
  | cons c cs ih =>
    simp only [splitOnChar]
    by_cases h : c = sep
    · simp [h]
    · simp only [h, if_false]
      cases hr : splitOnChar sep cs with
      | nil => simp
      | cons s rest => simp

/-- A dotted key always splits into at least one segment. -/
theorem splitDot_exists_cons (s : String) :
    ∃ k0 rest, splitDot s = k0 :: rest := by
  unfold splitDot
  cases h : splitOnChar '.' s.toList with
  | nil => exact absurd h (splitOnChar_ne_nil '.' s.toList)
  | cons l ls => exact ⟨⟨l⟩, ls.map (fun l => ⟨l⟩), by simp [h]⟩

/-! ## String lemmas for the porcelain parser -/

theorem startsWithStr_append (pre s : String) :
    startsWithStr (pre ++ s) pre = true := by
  unfold startsWithStr
  rw [show (pre ++ s).toList = pre.toList ++ s.toList from String.data_append pre s,
    List.isPrefixOf_iff_prefix]
  exact List.prefix_append pre.toList s.toList

theorem sw_HEAD_not_worktree (s : String) :
    startsWithStr ("HEAD " ++ s) "worktree " = false := by
  show List.isPrefixOf "worktree ".toList (("HEAD " ++ s).toList) = false
  rw [show ("HEAD " ++ s).toList = "HEAD ".toList ++ s.toList from
    String.data_append "HEAD " s]
  rfl

theorem sw_branch_not_worktree (s : String) :
    startsWithStr ("branch " ++ s) "worktree " = false := by
  show List.isPrefixOf "worktree ".toList (("branch " ++ s).toList) = false
  rw [show ("branch " ++ s).toList = "branch ".toList ++ s.toList from
    String.data_append "branch " s]
  rfl

theorem sw_branch_not_hEAD (s : String) :
    startsWithStr ("branch " ++ s) "HEAD " = false := by
  show List.isPrefixOf "HEAD ".toList (("branch " ++ s).toList) = false
  rw [show ("branch " ++ s).toList = "branch ".toList ++ s.toList from
    String.data_append "branch " s]
  rfl

theorem dropChars_pre_append (pre s : String) :
    dropChars (pre ++ s) pre.toList.length = s := by
  unfold dropChars
  rw [show (pre ++ s).toList = pre.toList ++ s.toList from String.data_append pre s,
    List.drop_left]
  rfl

theorem replaceFirstList_cons (pat : List Char) (c : Char) (cs : List Char) :
    replaceFirstList pat (c :: cs) =
      if pat.isPrefixOf (c :: cs) then (c :: cs).drop pat.length
      else c :: replaceFirstList pat cs := rfl

theorem replaceFirst_pref_append (pat s : String) (hne : pat.toList ≠ []) :
    replaceFirst (pat ++ s) pat = s := by
  cases hp : pat.toList with
  | nil => exact absurd hp hne
  | cons c cs =>
    unfold replaceFirst
    rw [show (pat ++ s).toList = pat.toList ++ s.toList from String.data_append pat s,
      hp, List.cons_append, replaceFirstList_cons]
    have hpre : (c :: cs).isPrefixOf (c :: (cs ++ s.toList)) = true := by
      rw [List.isPrefixOf_iff_prefix, ← List.cons_append]
      exact List.prefix_append (c :: cs) s.toList
    rw [if_pos hpre, ← List.cons_append, List.drop_left]
    rfl

/-! ## Step lemmas for the porcelain parsing loop -/

namespace Worktree

theorem parseLines_worktree_fresh (p : String) (rest : List String) :
    parseLines (("worktree " ++ p) :: rest) ⟨none, none, none⟩ =
      parseLines rest ⟨some p, none, none⟩ := by
  have hdrop : dropChars ("worktree " ++ p) 9 = p := dropChars_pre_append "worktree " p
  simp only [parseLines, startsWithStr_append, if_true, hdrop]
  rfl

theorem parseLines_head_line (c : String) (rest : List String)
    (pa co br : Option String) :
    parseLines (("HEAD " ++ c) :: rest) ⟨pa, co, br⟩ =
      parseLines rest ⟨pa, some c, br⟩ := by
  have hdrop : dropChars ("HEAD " ++ c) 5 = c := dropChars_pre_append "HEAD " c
  simp only [parseLines, sw_HEAD_not_worktree, startsWithStr_append,
    Bool.false_eq_true, if_false, if_true, hdrop]

theorem parseLines_branch_line (b : String) (rest : List String)
    (pa co br : Option String) :
    parseLines (("branch refs/heads/" ++ b) :: rest) ⟨pa, co, br⟩ =
      parseLines rest ⟨pa, co, some b⟩ := by
  have hline : ("branch refs/heads/" ++ b : String) =
      "branch " ++ ("refs/heads/" ++ b) := rfl
  have hdrop : dropChars ("branch " ++ ("refs/heads/" ++ b)) 7 =
      "refs/heads/" ++ b := dropChars_pre_append "branch " ("refs/heads/" ++ b)
  have hrepl : replaceFirst ("refs/heads/" ++ b) "refs/heads/" = b :=
    replaceFirst_pref_append "refs/heads/" b (by decide)
  rw [hline]
  simp only [parseLines, sw_branch_not_worktree, sw_branch_not_hEAD,
    startsWithStr_append, Bool.false_eq_true, if_false, if_true, hdrop, hrepl]

theorem parseLines_blank_flush (rest : List String) (path : String)
    (co br : Option String) (hp : path ≠ "") :
    parseLines ("" :: rest) ⟨some path, co, br⟩ =
      ⟨path, co, br⟩ :: parseLines rest ⟨none, none, none⟩ := by
  have htr : truthyStr (some path) = true := by
    simp [truthyStr, hp]
  simp only [parseLines,
    show startsWithStr "" "worktree " = false from rfl,
    show startsWithStr "" "HEAD " = false from rfl,
    show startsWithStr "" "branch " = false from rfl,
    Bool.false_eq_true, if_false, htr]
  rfl

theorem parseLines_nil_fresh :
    parseLines ([] : List String) ⟨none, none, none⟩ = [] := rfl

end Worktree

/-! ## Claim theorems -/

/-- C1: For every state of the config store, after any mutation (set,
delete, reset, clearLocal, clearGlobal, setMultiple, reload,
initLocalConfig), the merged view equals the shallow top-level overlay
of the local document onto the global document (`{...global, ...local}`),
not a deep recursive merge: the invariant is established by the loading
constructor and preserved by every mutation, and on the concrete example
global `{jira: {host: "a", email: "b"}}` with local `{jira: {host: "c"}}`
the merged `jira` is exactly `{host: "c"}` and `jira.email` is absent. -/
theorem c1_merged_view_shallow_overlay :
    (∀ gf lf : FileContent,
      ConfigManager.mergedInvariant (ConfigManager.loadConfigsSync gf lf)) ∧
    (∀ (s : ConfigState) (m : ConfigManager.Mutation),
      ConfigManager.mergedInvariant s →
      ConfigManager.mergedInvariant (ConfigManager.applyMutation s m)) ∧
    lookupJ (ConfigManager.mergeConfigs
      [("version", .str "1.0.0"),
       ("jira", .obj [("host", .str "a"), ("email", .str "b")])]
      [("jira", .obj [("host", .str "c")])]) "jira"
      = some (.obj [("host", .str "c")]) ∧
    ConfigManager.get
      ⟨[("version", .str "1.0.0"),
        ("jira", .obj [("host", .str "a"), ("email", .str "b")])],
       [("jira", .obj [("host", .str "c")])],
       ConfigManager.mergeConfigs
         [("version", .str "1.0.0"),
          ("jira", .obj [("host", .str "a"), ("email", .str "b")])]
         [("jira", .obj [("host", .str "c")])]⟩ "jira.email" = none := by
  refine ⟨fun gf lf => rfl, ?_, rfl, rfl⟩
  intro s m hm
  cases m with
  | set key value g => rfl
  | delete key g => rfl
  | setMultiple values g => rfl
  | clearLocal => rfl
  | clearGlobal => rfl
  | reset scope => rfl
  | reloadConfigs gf lf => rfl
  | initLocalConfig ex =>
    cases ex with
    | false => rfl
    | true => exact hm

/-- Witness for C1: the preservation clause applied to a concrete state
and mutation, with the invariant hypothesis discharged by evaluation. -/
theorem c1_witness :
    ConfigManager.mergedInvariant (ConfigManager.applyMutation
      ⟨ConfigManager.DEFAULT_CONFIG, [],
        ConfigManager.mergeConfigs ConfigManager.DEFAULT_CONFIG []⟩
      (.set "jira.host" (.str "h") false)) :=
  c1_merged_view_shallow_overlay.2.1
    ⟨ConfigManager.DEFAULT_CONFIG, [],
      ConfigManager.mergeConfigs ConfigManager.DEFAULT_CONFIG []⟩
    (.set "jira.host" (.str "h") false) rfl

/-- C2 (amended): for every dotted key of at least 3 segments and every
value, `set(k, v, isGlobal)` followed by `get(k)` returns `v` in every
starting state for the local scope; for the global scope the same holds
provided the local document does not already contain the first segment
of the key as a top-level key (otherwise the local value shadows the
freshly written global value in the merged view). -/
theorem c2_set_get_roundtrip (s : ConfigState) (key : String) (v : JValue)
    (k0 : String) (rest : List String)
    (hsplit : splitDot key = k0 :: rest)
    (_hdepth : 3 ≤ (splitDot key).length) :
    ConfigManager.get
      (ConfigManager.applyMutation s (.set key v false)) key = some v ∧
    (lookupJ s.localConfig k0 = none →
      ConfigManager.get
        (ConfigManager.applyMutation s (.set key v true)) key = some v) := by
  constructor
  · show getPath
      (.obj (spreadObj s.globalConfig (setPath s.localConfig (splitDot key) v)))
      (splitDot key) = some v
    rw [hsplit]
    obtain ⟨X, hX, hget⟩ := setPath_head v rest k0 s.localConfig
    rw [getPath_obj_cons, lookupJ_spreadObj, hX]
    exact hget
  · intro hloc
    show getPath
      (.obj (spreadObj (setPath s.globalConfig (splitDot key) v) s.localConfig))
      (splitDot key) = some v
    rw [hsplit]
    obtain ⟨X, hX, hget⟩ := setPath_head v rest k0 s.globalConfig
    rw [getPath_obj_cons, lookupJ_spreadObj, hX, hloc]
    exact hget

/-- Witness for C2: both scopes of the round trip at a concrete
3-segment key, value and state. -/
theorem c2_witness :
    ConfigManager.get (ConfigManager.applyMutation
      ⟨ConfigManager.DEFAULT_CONFIG, [],
        ConfigManager.mergeConfigs ConfigManager.DEFAULT_CONFIG []⟩
      (.set "jira.api.host" (.str "x") false)) "jira.api.host"
      = some (.str "x") ∧
    ConfigManager.get (ConfigManager.applyMutation
      ⟨ConfigManager.DEFAULT_CONFIG, [],
        ConfigManager.mergeConfigs ConfigManager.DEFAULT_CONFIG []⟩
      (.set "jira.api.host" (.str "x") true)) "jira.api.host"
      = some (.str "x") :=
  ⟨(c2_set_get_roundtrip _ "jira.api.host" (.str "x") "jira" ["api", "host"]
      rfl (by decide)).1,
   (c2_set_get_roundtrip _ "jira.api.host" (.str "x") "jira" ["api", "host"]
      rfl (by decide)).2 rfl⟩

/-- Counterexample to C2 as stated: with local document `{a: 1}`, a
global `set("a.b.c", "x")` followed by `get("a.b.c")` yields `undefined`
rather than `"x"`, because the local scalar `a` shadows the whole global
`a` subtree in the merged view. -/
theorem c2_counterexample :
    3 ≤ (splitDot "a.b.c").length ∧
    ConfigManager.get (ConfigManager.applyMutation
      ⟨ConfigManager.DEFAULT_CONFIG, [("a", .num 1)],
        ConfigManager.mergeConfigs ConfigManager.DEFAULT_CONFIG [("a", .num 1)]⟩
      (.set "a.b.c" (.str "x") true)) "a.b.c" = none ∧
    ConfigManager.get (ConfigManager.applyMutation
      ⟨ConfigManager.DEFAULT_CONFIG, [("a", .num 1)],
        ConfigManager.mergeConfigs ConfigManager.DEFAULT_CONFIG [("a", .num 1)]⟩
      (.set "a.b.c" (.str "x") true)) "a.b.c" ≠ some (.str "x") :=
  ⟨by decide, rfl, fun h => nomatch h⟩

/-- C3 (amended): when a branch-prefix `p` is configured (non-empty) and
no explicit path is given, `createWorktree` creates the branch `p ++ b`
and the default worktree path's final directory-name component is the
*prefixed* branch as well: the path is
`<repoRoot>/../<repoName>_worktrees/<p ++ b>`, not
`.../<b>` as the claim stated. -/
theorem c3_createWorktree_prefixed (p b repoRoot repoName : String)
    (hp : p ≠ "") :
    (Worktree.createWorktree (some p) ⟨b, none, false⟩ repoRoot repoName).branch
      = p ++ b ∧
    (Worktree.createWorktree (some p) ⟨b, none, false⟩ repoRoot repoName).path
      = repoRoot ++ "/../" ++ repoName ++ "_worktrees/" ++ (p ++ b) := by
  have hpb : (p == "") = false := by simp [hp]
  constructor
  · show Worktree.finalBranchOf (some p) b = p ++ b
    simp [Worktree.finalBranchOf, hpb]
  · show Worktree.defaultWorktreePath repoRoot repoName
      (Worktree.finalBranchOf (some p) b) = _
    simp [Worktree.finalBranchOf, Worktree.defaultWorktreePath, hpb]

/-- Witness for C3 (amended) at a concrete prefix, branch and repo. -/
theorem c3_witness :
    (Worktree.createWorktree (some "feat/") ⟨"x", none, false⟩
      "/home/u/repo" "repo").branch = "feat/" ++ "x" ∧
    (Worktree.createWorktree (some "feat/") ⟨"x", none, false⟩
      "/home/u/repo" "repo").path =
      "/home/u/repo" ++ "/../" ++ "repo" ++ "_worktrees/" ++ ("feat/" ++ "x") :=
  c3_createWorktree_prefixed "feat/" "x" "/home/u/repo" "repo" (by decide)

/-- Counterexample to C3 as stated: with prefix `feat/` and branch `x`,
the branch created is `feat/x` but the default path ends in `feat/x`
too — it is not `<repoRoot>/../<repoName>_worktrees/x`. -/
theorem c3_counterexample :
    (Worktree.createWorktree (some "feat/") ⟨"x", none, false⟩
      "/home/u/repo" "repo").branch = "feat/x" ∧
    (Worktree.createWorktree (some "feat/") ⟨"x", none, false⟩
      "/home/u/repo" "repo").path = "/home/u/repo/../repo_worktrees/feat/x" ∧
    (Worktree.createWorktree (some "feat/") ⟨"x", none, false⟩
      "/home/u/repo" "repo").path ≠ "/home/u/repo/../repo_worktrees/x" :=
  ⟨by decide, by decide, by decide⟩

/-- C4: for a porcelain listing of 3 records separated by blank lines —
one detached-HEAD record with no branch line followed by two records
with `branch refs/heads/<name>` lines — the parser returns exactly 3
entries in input order, each branched entry carrying the name with the
`refs/heads/` prefix stripped and the detached entry with no branch;
also checked on a fully concrete porcelain output string. -/
theorem c4_listWorktrees_three_records
    (p1 c1 p2 c2 b2 p3 c3 b3 : String)
    (hp1 : p1 ≠ "") (hp2 : p2 ≠ "") (hp3 : p3 ≠ "") :
    Worktree.parseLines
      ["worktree " ++ p1, "HEAD " ++ c1, "",
       "worktree " ++ p2, "HEAD " ++ c2, "branch refs/heads/" ++ b2, "",
       "worktree " ++ p3, "HEAD " ++ c3, "branch refs/heads/" ++ b3, ""]
      ⟨none, none, none⟩ =
      [⟨p1, some c1, none⟩, ⟨p2, some c2, some b2⟩, ⟨p3, some c3, some b3⟩] ∧
    Worktree.listWorktrees
      "worktree /repo/main\nHEAD abc123\n\nworktree /repo/wt1\nHEAD def456\nbranch refs/heads/feature/x\n\nworktree /repo/wt2\nHEAD 789abc\nbranch refs/heads/bugfix-y\n"
      = [⟨"/repo/main", some "abc123", none⟩,
         ⟨"/repo/wt1", some "def456", some "feature/x"⟩,
         ⟨"/repo/wt2", some "789abc", some "bugfix-y"⟩] := by
  constructor
  · rw [Worktree.parseLines_worktree_fresh p1,
      Worktree.parseLines_head_line c1 _ (some p1) none none,
      Worktree.parseLines_blank_flush _ p1 (some c1) none hp1,
      Worktree.parseLines_worktree_fresh p2,
      Worktree.parseLines_head_line c2 _ (some p2) none none,
      Worktree.parseLines_branch_line b2 _ (some p2) (some c2) none,
      Worktree.parseLines_blank_flush _ p2 (some c2) (some b2) hp2,
      Worktree.parseLines_worktree_fresh p3,
      Worktree.parseLines_head_line c3 _ (some p3) none none,
      Worktree.parseLines_branch_line b3 _ (some p3) (some c3) none,
      Worktree.parseLines_blank_flush _ p3 (some c3) (some b3) hp3,
      Worktree.parseLines_nil_fresh]
  · decide

/-- Witness for C4 at concrete paths, commits and branch names. -/
theorem c4_witness :
    Worktree.parseLines
      ["worktree " ++ "/a", "HEAD " ++ "c1", "",
       "worktree " ++ "/b", "HEAD " ++ "c2", "branch refs/heads/" ++ "f1", "",
       "worktree " ++ "/c", "HEAD " ++ "c3", "branch refs/heads/" ++ "f2", ""]
      ⟨none, none, none⟩ =
      [⟨"/a", some "c1", none⟩, ⟨"/b", some "c2", some "f1"⟩,
       ⟨"/c", some "c3", some "f2"⟩] :=
  (c4_listWorktrees_three_records "/a" "c1" "/b" "c2" "f1" "/c" "c3" "f2"
    (by decide) (by decide) (by decide)).1

namespace HookManager

/-- With `failOnError` disabled the loop runs every hook and raises
nothing, whatever each hook's exit status. -/
theorem runLoop_all_run (cfg : HookConfig) (hfe : cfg.failOnError = false) :
    ∀ hooks : List Hook, runLoop cfg hooks = (hooks.map Hook.name, none) := by
  intro hooks
  induction hooks with
  | nil => rfl
  | cons h t ih =>
    cases hs : h.succeeds with
    | true => simp [runLoop, hs, ih]
    | false => simp [runLoop, hs, hfe, ih]

/-- With `failOnError` enabled the loop stops at the first failing hook,
having executed exactly the hooks up to and including it, and raises. -/
theorem runLoop_failfast (cfg : HookConfig) (hfe : cfg.failOnError = true) :
    ∀ (hs1 : List Hook) (f : Hook) (hs2 : List Hook),
      (∀ h ∈ hs1, h.succeeds = true) → f.succeeds = false →
      runLoop cfg (hs1 ++ f :: hs2) =
        (hs1.map Hook.name ++ [f.name],
          some ("Hook failed: " ++ f.name ++ "\n" ++ f.errorMsg)) := by
  intro hs1
  induction hs1 with
  | nil =>
    intro f hs2 _ hf
    simp [runLoop, hf, hfe]
  | cons h t ih =>
    intro f hs2 hpre hf
    have hh : h.succeeds = true := hpre h (List.mem_cons_self h t)
    have ht : ∀ x ∈ t, x.succeeds = true := fun x hx =>
      hpre x (List.mem_cons_of_mem h hx)
    simp [runLoop, hh, ih f hs2 ht hf]

end HookManager

/-- C5: for every sequence of discovered hooks of one type (dispatching
presupposes `enabled`), with `failOnError` disabled every hook in the
sequence executes, in order, even if earlier hooks exit non-zero, and no
error is raised; with `failOnError` enabled the first hook that exits
non-zero raises an error and no subsequent hook runs — the executed
hooks are exactly those before the failure plus the failing hook. -/
theorem c5_hook_failure_policy (cfg : HookManager.HookConfig)
    (hooks : List HookManager.Hook) (hen : cfg.enabled = true) :
    (cfg.failOnError = false →
      HookManager.runHooks cfg hooks = (hooks.map HookManager.Hook.name, none)) ∧
    (cfg.failOnError = true →
      ∀ (hs1 : List HookManager.Hook) (f : HookManager.Hook)
        (hs2 : List HookManager.Hook),
        hooks = hs1 ++ f :: hs2 →
        (∀ h ∈ hs1, h.succeeds = true) → f.succeeds = false →
        HookManager.runHooks cfg hooks =
          (hs1.map HookManager.Hook.name ++ [f.name],
            some ("Hook failed: " ++ f.name ++ "\n" ++ f.errorMsg))) := by
  have hrun : HookManager.runHooks cfg hooks = HookManager.runLoop cfg hooks := by
    simp [HookManager.runHooks, hen]
  constructor
  · intro hfe
    rw [hrun]
    exact HookManager.runLoop_all_run cfg hfe hooks
  · intro hfe hs1 f hs2 heq hpre hf
    rw [hrun, heq]
    exact HookManager.runLoop_failfast cfg hfe hs1 f hs2 hpre hf

/-- Witness for C5: a two-hook sequence whose first hook fails; with
`failOnError` disabled both run, with it enabled only the first runs and
an error is raised. -/
theorem c5_witness :
    HookManager.runHooks ⟨true, false, 30000⟩
      [⟨"post-create.a", false, "boom"⟩, ⟨"post-create.b", true, ""⟩] =
      (["post-create.a", "post-create.b"], none) ∧
    HookManager.runHooks ⟨true, true, 30000⟩
      [⟨"post-create.a", false, "boom"⟩, ⟨"post-create.b", true, ""⟩] =
      (["post-create.a"], some ("Hook failed: " ++ "post-create.a" ++ "\n" ++ "boom")) :=
  ⟨(c5_hook_failure_policy ⟨true, false, 30000⟩
      [⟨"post-create.a", false, "boom"⟩, ⟨"post-create.b", true, ""⟩] rfl).1 rfl,
   (c5_hook_failure_policy ⟨true, true, 30000⟩
      [⟨"post-create.a", false, "boom"⟩, ⟨"post-create.b", true, ""⟩] rfl).2 rfl
      [] ⟨"post-create.a", false, "boom"⟩ [⟨"post-create.b", true, ""⟩]
      rfl (by intro h hh; exact absurd hh (List.not_mem_nil h)) rfl⟩

/-- C6: a missing, zero-byte/whitespace-only, or malformed config file
loads as the default skeleton `{version: "1.0.0"}` for the global scope
and as the empty document for the local scope, both at construction and
on reload; the loaders are total functions (the sources catch every read
failure), so no error surfaces to the caller. -/
theorem c6_failed_reads_defaults (gf lf : FileContent)
    (hg : gf = .missing ∨ gf = .blank ∨ gf = .malformed)
    (hl : lf = .missing ∨ lf = .blank ∨ lf = .malformed) :
    ConfigManager.loadGlobalConfigSync gf = [("version", .str "1.0.0")] ∧
    ConfigManager.loadLocalConfigSync lf = [] ∧
    (∀ s : ConfigState,
      ConfigManager.applyMutation s (.reloadConfigs gf lf) =
        ConfigManager.loadConfigsSync gf lf) ∧
    ConfigManager.loadConfigsSync gf lf =
      ⟨[("version", .str "1.0.0")], [],
        ConfigManager.mergeConfigs [("version", .str "1.0.0")] []⟩ := by
  rcases hg with rfl | rfl | rfl <;> rcases hl with rfl | rfl | rfl <;>
    exact ⟨rfl, rfl, fun s => rfl, rfl⟩

/-- Witness for C6 at concrete failed file contents. -/
theorem c6_witness :
    ConfigManager.loadGlobalConfigSync .malformed = [("version", .str "1.0.0")] ∧
    ConfigManager.loadLocalConfigSync .blank = [] :=
  ⟨(c6_failed_reads_defaults .malformed .blank (Or.inr (Or.inr rfl))
      (Or.inr (Or.inl rfl))).1,
   (c6_failed_reads_defaults .malformed .blank (Or.inr (Or.inr rfl))
      (Or.inr (Or.inl rfl))).2.1⟩

/-- C7 (amended): for every dotted key and store state,
`delete(k, isGlobal)` followed by `get(k)` yields `undefined` provided
the document of the *other* scope yields no value at `k` (otherwise the
other scope still supplies a value to the merged view); and deleting a
key whose path does not exist in the target document — including a
missing or non-object intermediate segment — is a total no-op that
leaves a well-formed target document literally unchanged (the sources
raise no error on this path). -/
theorem c7_delete_semantics (s : ConfigState) (key : String) (isGlobal : Bool)
    (k0 : String) (rest : List String) (hsplit : splitDot key = k0 :: rest) :
    (getPath (.obj (if isGlobal then s.localConfig else s.globalConfig))
        (k0 :: rest) = none →
      ConfigManager.get
        (ConfigManager.applyMutation s (.delete key isGlobal)) key = none) ∧
    (∀ o : JObj, WfVal (.obj o) → getPath (.obj o) (k0 :: rest) = none →
      deletePath o (k0 :: rest) = o) := by
  constructor
  · intro hother
    cases isGlobal with
    | false =>
      show getPath (.obj (spreadObj s.globalConfig
          (deletePath s.localConfig (splitDot key)))) (splitDot key) = none
      rw [hsplit]
      exact getPath_spreadObj_none _ _ _ _ hother
        (getPath_deletePath rest k0 s.localConfig)
    | true =>
      show getPath (.obj (spreadObj
          (deletePath s.globalConfig (splitDot key)) s.localConfig))
          (splitDot key) = none
      rw [hsplit]
      exact getPath_spreadObj_none _ _ _ _
        (getPath_deletePath rest k0 s.globalConfig) hother
  · intro o hwf hnone
    exact deletePath_noop (k0 :: rest) o hwf hnone

/-- Witness for C7: a local delete whose key the global document does
not reach, followed by a get, and a no-op delete on a document missing
the path. -/
theorem c7_witness :
    ConfigManager.get (ConfigManager.applyMutation
      ⟨ConfigManager.DEFAULT_CONFIG, [("a", .obj [("b", .num 1)])],
        ConfigManager.mergeConfigs ConfigManager.DEFAULT_CONFIG
          [("a", .obj [("b", .num 1)])]⟩
      (.delete "a.b" false)) "a.b" = none ∧
    deletePath [("x", .num 1)] ["a", "b"] = [("x", .num 1)] :=
  ⟨(c7_delete_semantics
      ⟨ConfigManager.DEFAULT_CONFIG, [("a", .obj [("b", .num 1)])],
        ConfigManager.mergeConfigs ConfigManager.DEFAULT_CONFIG
          [("a", .obj [("b", .num 1)])]⟩
      "a.b" false "a" ["b"] rfl).1 rfl,
   (c7_delete_semantics ⟨[], [], []⟩ "a.b" false "a" ["b"] rfl).2
      [("x", .num 1)]
      (WfVal.obj _ (by simp)
        (by intro p hp; rw [List.mem_singleton] at hp; subst hp
            exact WfVal.num 1))
      rfl⟩

/-- Counterexample to C7 as stated: both scopes hold `a`; after the
local `delete("a")`, `get("a")` still yields the global value `1`, not
`undefined`. -/
theorem c7_counterexample :
    ConfigManager.get (ConfigManager.applyMutation
      ⟨[("version", .str "1.0.0"), ("a", .num 1)], [("a", .num 2)],
        ConfigManager.mergeConfigs [("version", .str "1.0.0"), ("a", .num 1)]
          [("a", .num 2)]⟩
      (.delete "a" false)) "a" = some (.num 1) ∧
    ConfigManager.get (ConfigManager.applyMutation
      ⟨[("version", .str "1.0.0"), ("a", .num 1)], [("a", .num 2)],
        ConfigManager.mergeConfigs [("version", .str "1.0.0"), ("a", .num 1)]
          [("a", .num 2)]⟩
      (.delete "a" false)) "a" ≠ none :=
  ⟨rfl, fun h => nomatch h⟩

/-- C8: `set(k, v, isGlobal)` creates intermediate object nodes along the
dotted path for all but the last segment (so the written leaf is
readable back along the path from any starting document, with no error
raised), and a non-object intermediate value — scalar or null — is
overwritten with a fresh empty object into which the rest of the chain,
ending in `v`, is built; an absent intermediate likewise starts from an
empty object. -/
theorem c8_set_creates_intermediates :
    (∀ (o : JObj) (k0 : String) (rest : List String) (v : JValue),
      getPath (.obj (setPath o (k0 :: rest) v)) (k0 :: rest) = some v) ∧
    (∀ (o : JObj) (k0 k1 : String) (rest : List String) (v w : JValue),
      lookupJ o k0 = some w → isObjV w = false →
      lookupJ (setPath o (k0 :: k1 :: rest) v) k0 =
        some (.obj (setPath [] (k1 :: rest) v))) ∧
    (∀ (o : JObj) (k0 k1 : String) (rest : List String) (v : JValue),
      lookupJ o k0 = none →
      lookupJ (setPath o (k0 :: k1 :: rest) v) k0 =
        some (.obj (setPath [] (k1 :: rest) v))) := by
  refine ⟨fun o k0 rest v => getPath_setPath o k0 rest v, ?_, ?_⟩
  · intro o k0 k1 rest v w h hw
    cases w with
    | obj c => simp [isObjV] at hw
    | null =>
      have h2 : setPath o (k0 :: k1 :: rest) v =
          setKey o k0 (.obj (setPath [] (k1 :: rest) v)) := by
        rw [setPath_cons2, h]
      rw [h2, lookupJ_setKey_self]
    | bool b =>
      have h2 : setPath o (k0 :: k1 :: rest) v =
          setKey o k0 (.obj (setPath [] (k1 :: rest) v)) := by
        rw [setPath_cons2, h]
      rw [h2, lookupJ_setKey_self]
    | num n =>
      have h2 : setPath o (k0 :: k1 :: rest) v =
          setKey o k0 (.obj (setPath [] (k1 :: rest) v)) := by
        rw [setPath_cons2, h]
      rw [h2, lookupJ_setKey_self]
    | str t =>
      have h2 : setPath o (k0 :: k1 :: rest) v =
          setKey o k0 (.obj (setPath [] (k1 :: rest) v)) := by
        rw [setPath_cons2, h]
      rw [h2, lookupJ_setKey_self]
  · intro o k0 k1 rest v h
    have h2 : setPath o (k0 :: k1 :: rest) v =
        setKey o k0 (.obj (setPath [] (k1 :: rest) v)) := by
      rw [setPath_cons2, h]
    rw [h2, lookupJ_setKey_self]

/-- Witness for C8: a scalar intermediate `a` is destructively replaced
by `{b: 7}` when setting `a.b`, and a 3-level set into the empty
document reads back. -/
theorem c8_witness :
    lookupJ (setPath [("a", .str "s")] ["a", "b"] (.num 7)) "a" =
      some (.obj [("b", .num 7)]) ∧
    getPath (.obj (setPath [] ["x", "y", "z"] (.bool true))) ["x", "y", "z"] =
      some (.bool true) :=
  ⟨c8_set_creates_intermediates.2.1 [("a", .str "s")] "a" "b" [] (.num 7)
      (.str "s") rfl rfl,
   c8_set_creates_intermediates.1 [] "x" ["y", "z"] (.bool true)⟩

/-- C9: when the listing contains no worktree with a branch field (only
the branchless main worktree, if any), `removeWorktree` without a branch
argument fails with the `No worktrees available to remove` error before
the interactive selection prompt is reached. -/
theorem c9_remove_no_worktrees (worktrees : List WorktreeInfo)
    (hall : ∀ wt ∈ worktrees, wt.branch = none) :
    Worktree.removeSelectPhase none worktrees =
      .err "No worktrees available to remove" := by
  have hfilter : worktrees.filter (fun wt => truthyStr wt.branch) = [] := by
    rw [List.filter_eq_nil_iff]
    intro wt hwt
    rw [hall wt hwt]
    simp [truthyStr]
  simp only [Worktree.removeSelectPhase, hfilter]
  rfl

/-- Witness for C9: a listing holding only the branchless main worktree. -/
theorem c9_witness :
    Worktree.removeSelectPhase none [⟨"/main", some "c0", none⟩] =
      .err "No worktrees available to remove" :=
  c9_remove_no_worktrees [⟨"/main", some "c0", none⟩]
    (by intro wt hwt; rw [List.mem_singleton] at hwt; subst hwt; rfl)

/-- C10: for every hook invocation the environment variables
`CUTI_HOOK_BRANCH`, `CUTI_HOOK_PATH`, `CUTI_HOOK_FORCE` and
`CUTI_HOOK_JIRA` are always defined; an absent branch or path argument
yields the empty string, and an absent or false force/jira argument
yields the string `"false"`. -/
theorem c10_hook_env_vars (ctx : HookManager.HookContext) :
    ((HookManager.envVar (HookManager.hookEnv ctx) "CUTI_HOOK_BRANCH").isSome = true ∧
     (HookManager.envVar (HookManager.hookEnv ctx) "CUTI_HOOK_PATH").isSome = true ∧
     (HookManager.envVar (HookManager.hookEnv ctx) "CUTI_HOOK_FORCE").isSome = true ∧
     (HookManager.envVar (HookManager.hookEnv ctx) "CUTI_HOOK_JIRA").isSome = true) ∧
    (ctx.args.branch = none →
      HookManager.envVar (HookManager.hookEnv ctx) "CUTI_HOOK_BRANCH" = some "") ∧
    (ctx.args.path = none →
      HookManager.envVar (HookManager.hookEnv ctx) "CUTI_HOOK_PATH" = some "") ∧
    ((ctx.args.force = none ∨ ctx.args.force = some false) →
      HookManager.envVar (HookManager.hookEnv ctx) "CUTI_HOOK_FORCE" = some "false") ∧
    ((ctx.args.jira = none ∨ ctx.args.jira = some false) →
      HookManager.envVar (HookManager.hookEnv ctx) "CUTI_HOOK_JIRA" = some "false") := by
  have hbranch : HookManager.envVar (HookManager.hookEnv ctx) "CUTI_HOOK_BRANCH"
      = some (HookManager.jsOrEmpty ctx.args.branch) := rfl
  have hpath : HookManager.envVar (HookManager.hookEnv ctx) "CUTI_HOOK_PATH"
      = some (HookManager.jsOrEmpty ctx.args.path) := rfl
  have hforce : HookManager.envVar (HookManager.hookEnv ctx) "CUTI_HOOK_FORCE"
      = some (HookManager.jsCondStr ctx.args.force) := rfl
  have hjira : HookManager.envVar (HookManager.hookEnv ctx) "CUTI_HOOK_JIRA"
      = some (HookManager.jsCondStr ctx.args.jira) := rfl
  refine ⟨⟨?_, ?_, ?_, ?_⟩, ?_, ?_, ?_, ?_⟩
  · rw [hbranch]; rfl
  · rw [hpath]; rfl
  · rw [hforce]; rfl
  · rw [hjira]; rfl
  · intro h; rw [hbranch, h]; rfl
  · intro h; rw [hpath, h]; rfl
  · intro h
    rcases h with h | h
    · rw [hforce, h]; rfl
    · rw [hforce, h]; rfl
  · intro h
    rcases h with h | h
    · rw [hjira, h]; rfl
    · rw [hjira, h]; rfl

/-- Witness for C10: a context with no branch, path, force or jira
arguments. -/
theorem c10_witness :
    HookManager.envVar (HookManager.hookEnv
      ⟨"worktree", "add", .pre, ⟨none, none, none, none, none, none, none⟩, none⟩)
      "CUTI_HOOK_BRANCH" = some "" ∧
    HookManager.envVar (HookManager.hookEnv
      ⟨"worktree", "add", .pre, ⟨none, none, none, none, none, none, none⟩, none⟩)
      "CUTI_HOOK_FORCE" = some "false" :=
  ⟨(c10_hook_env_vars
      ⟨"worktree", "add", .pre, ⟨none, none, none, none, none, none, none⟩, none⟩).2.1
      rfl,
   (c10_hook_env_vars
      ⟨"worktree", "add", .pre, ⟨none, none, none, none, none, none, none⟩, none⟩).2.2.2.1
      (Or.inl rfl)⟩
